import Mathlib

/-!
Shallow embedding of `ellipse.py`: conversions between three
parameterizations of a planar ellipse (geometric parameters, implicit conic
coefficients, shape moments), the closed-form 2x2 symmetric eigensolver, the
conic scale/degeneracy check, the homography transform of a conic, and the
Green-theorem polygon moments.  Floating-point values are modelled by exact
reals; the one place where the Python code can produce an IEEE infinity by
dividing a nonzero float by zero (`conic_scale`) is modelled by the explicit
extended-value type `FVal`.
-/

noncomputable section

namespace Ellipse

open Real Matrix

/-- Result of an IEEE double computation as modelled here: a finite real,
a signed infinity, or NaN. -/
inductive FVal
  | fin (r : ℝ)
  | pinf
  | ninf
  | nan

/-- Models `numpy.isinf`: true exactly on the two signed infinities. -/
def FVal.isinf : FVal → Bool
  | .pinf => true
  | .ninf => true
  | _ => false

/-- The real value carried by a finite `FVal` (junk value 0 otherwise;
only ever used on values known to be finite). -/
def FVal.toReal : FVal → ℝ
  | .fin r => r
  | _ => 0

/-- IEEE-style division of finite values: dividing a nonzero value by zero
gives a signed infinity, 0/0 gives NaN, otherwise exact real division.
The zero here stands for IEEE +0.0, as produced by `T*numpy.sqrt(T)` at
`T = 0.0` in `conic_scale`. -/
def fdiv (a b : ℝ) : FVal :=
  if b = 0 then (if 0 < a then .pinf else if a < 0 then .ninf else .nan)
  else .fin (a / b)

/-- Geometric ellipse parameters `(x0, y0, a, b, theta)`. -/
structure Gparams where
  x0 : ℝ
  y0 : ℝ
  a : ℝ
  b : ℝ
  theta : ℝ

/-- Conic coefficients `(A, B, C, D, E, F)` of `AX² + BXY + CY² + DX + EY + F = 0`. -/
structure Conic where
  A : ℝ
  B : ℝ
  C : ℝ
  D : ℝ
  E : ℝ
  F : ℝ

/-- Shape moments `(m00, m10, m01, mu20, mu11, mu02)`. -/
structure Moments where
  m00 : ℝ
  m10 : ℝ
  m01 : ℝ
  mu20 : ℝ
  mu11 : ℝ
  mu02 : ℝ

/-- Output of `eigh_2x2`: eigenvalues `w0, w1` and the eigenvector matrix
`V = [[v00, v01], [v10, v11]]` whose columns correspond to `w0, w1`. -/
structure Eigh where
  w0 : ℝ
  w1 : ℝ
  v00 : ℝ
  v01 : ℝ
  v10 : ℝ
  v11 : ℝ

/-- Embedding of `eigh_2x2(x, y, z)`: closed-form eigendecomposition of the
symmetric matrix `[[x, y], [y, z]]`, with
`q = sqrt(z**2 - 2*x*z + 4*y**2 + x**2)` exactly as in the source. -/
def eigh_2x2 (x y z : ℝ) : Eigh :=
  ⟨0.5 * (z + x - Real.sqrt (z ^ 2 - 2 * x * z + 4 * y ^ 2 + x ^ 2)),
   0.5 * (z + x + Real.sqrt (z ^ 2 - 2 * x * z + 4 * y ^ 2 + x ^ 2)),
   2 * y,
   2 * y,
   z - x - Real.sqrt (z ^ 2 - 2 * x * z + 4 * y ^ 2 + x ^ 2),
   z - x + Real.sqrt (z ^ 2 - 2 * x * z + 4 * y ^ 2 + x ^ 2)⟩

/-- Embedding of `numpy.arctan2(y, x)`: the argument of the complex number
`x + y*i`, in `(-pi, pi]`, with `arctan2 0 0 = 0`. -/
def arctan2 (y x : ℝ) : ℝ :=
  Complex.arg ⟨x, y⟩

/-- The discriminant `T = 4*A*C - B*B` computed in `conic_scale`. -/
def conicT (c : Conic) : ℝ :=
  4 * c.A * c.C - c.B * c.B

/-- The cubic invariant `S = A*E**2 + B**2*F + C*D**2 - B*D*E - 4*A*C*F`
computed in `conic_scale`. -/
def conicS (c : Conic) : ℝ :=
  c.A * c.E ^ 2 + c.B ^ 2 * c.F + c.C * c.D ^ 2 - c.B * c.D * c.E -
    4 * c.A * c.C * c.F

/-- Embedding of `conic_scale(conic)`: returns the pair `(k, ab)`.  If
`T < 0` or `S == 0` it returns the `(inf, inf)` sentinel; otherwise
`k = 0.25*T**2/S` (the divisor `S` is nonzero here, so `k` is finite) and
`ab = 2*S/(T*sqrt(T))`, whose divisor is zero when `T = 0`, producing a
signed infinity as in IEEE arithmetic. -/
def conic_scale (c : Conic) : FVal × FVal :=
  if conicT c < 0 then (.pinf, .pinf)
  else if conicS c = 0 then (.pinf, .pinf)
  else (.fin (0.25 * conicT c ^ 2 / conicS c),
        fdiv (2 * conicS c) (conicT c * Real.sqrt (conicT c)))

/-- Embedding of `gparams_from_conic(conic)`: `None` when `conic_scale`
reports an infinite `ab`, otherwise the geometric parameters recovered from
the conic coefficients. -/
def gparams_from_conic (conic : Conic) : Option Gparams :=
  let s := conic_scale conic
  if s.2.isinf then none
  else
    let k := s.1.toReal
    let e := eigh_2x2 conic.A (0.5 * conic.B) conic.C
    some ⟨(conic.B * conic.E - 2 * conic.C * conic.D) /
            (4 * conic.A * conic.C - conic.B ^ 2),
          (-2 * conic.A * conic.E + conic.B * conic.D) /
            (4 * conic.A * conic.C - conic.B ^ 2),
          Real.sqrt (e.w1 / k),
          Real.sqrt (e.w0 / k),
          arctan2 (-e.v01) e.v11⟩

/-- Embedding of `gparams_from_moments(m)`. -/
def gparams_from_moments (m : Moments) : Gparams :=
  let e := eigh_2x2 (m.mu20 / m.m00) (m.mu11 / m.m00) (m.mu02 / m.m00)
  ⟨m.m10 / m.m00,
   m.m01 / m.m00,
   2 * Real.sqrt e.w1,
   2 * Real.sqrt e.w0,
   arctan2 e.v00 (-e.v10)⟩

/-- Embedding of `conic_from_gparams(gparams)`. -/
def conic_from_gparams (g : Gparams) : Conic :=
  let c := Real.cos g.theta
  let s := Real.sin g.theta
  let A := g.a ^ 2 * s ^ 2 + g.b ^ 2 * c ^ 2
  let B := 2 * (g.b ^ 2 - g.a ^ 2) * s * c
  let C := g.a ^ 2 * c ^ 2 + g.b ^ 2 * s ^ 2
  ⟨A, B, C,
   -2 * A * g.x0 - B * g.y0,
   -B * g.x0 - 2 * C * g.y0,
   A * g.x0 ^ 2 + B * g.x0 * g.y0 + C * g.y0 ^ 2 - g.a ^ 2 * g.b ^ 2⟩

/-- Embedding of `conic_from_moments(moments)`. -/
def conic_from_moments (m : Moments) : Conic :=
  let x0 := m.m10 / m.m00
  let y0 := m.m01 / m.m00
  let A := 4 * m.mu02 / m.m00
  let B := -8 * m.mu11 / m.m00
  let C := 4 * m.mu20 / m.m00
  let a2b2 := 0.25 * (4 * A * C - B * B)
  ⟨A, B, C,
   -2 * A * x0 - B * y0,
   -B * x0 - 2 * C * y0,
   A * x0 ^ 2 + B * x0 * y0 + C * y0 ^ 2 - a2b2⟩

/-- Embedding of `moments_from_gparams(gparams)`. -/
def moments_from_gparams (g : Gparams) : Moments :=
  let c := Real.cos g.theta
  let s := Real.sin g.theta
  let m00 := g.a * g.b * π
  ⟨m00,
   g.x0 * m00,
   g.y0 * m00,
   (g.a ^ 2 * c ^ 2 + g.b ^ 2 * s ^ 2) * m00 * 0.25,
   -(g.b ^ 2 - g.a ^ 2) * s * c * m00 * 0.25,
   (g.a ^ 2 * s ^ 2 + g.b ^ 2 * c ^ 2) * m00 * 0.25⟩

/-- Elementwise division of the six conic coefficients by a scalar, modelling
`numpy.array(scaled_conic)/k` in `moments_from_conic`. -/
def conic_div (c : Conic) (k : ℝ) : Conic :=
  ⟨c.A / k, c.B / k, c.C / k, c.D / k, c.E / k, c.F / k⟩

/-- Elementwise multiplication of the six conic coefficients by a scalar,
modelling `conic * k` on a numpy coefficient array. -/
def conic_smul (k : ℝ) (c : Conic) : Conic :=
  ⟨k * c.A, k * c.B, k * c.C, k * c.D, k * c.E, k * c.F⟩

/-- Embedding of `moments_from_conic(scaled_conic)`: `None` when
`conic_scale` reports an infinite `ab`; otherwise the conic is normalized by
`k` and converted to moments. -/
def moments_from_conic (scaled_conic : Conic) : Option Moments :=
  let s := conic_scale scaled_conic
  if s.2.isinf then none
  else
    let conic := conic_div scaled_conic s.1.toReal
    let x0 := (conic.B * conic.E - 2 * conic.C * conic.D) /
      (4 * conic.A * conic.C - conic.B ^ 2)
    let y0 := (-2 * conic.A * conic.E + conic.B * conic.D) /
      (4 * conic.A * conic.C - conic.B ^ 2)
    let m00 := π * s.2.toReal
    some ⟨m00,
          x0 * m00,
          y0 * m00,
          0.25 * conic.C * m00,
          -0.125 * conic.B * m00,
          0.25 * conic.A * m00⟩

/-- The symmetric 3x3 matrix `M` built from conic coefficients in
`conic_transform` (off-diagonal entries halved). -/
def conicMat (c : Conic) : Matrix (Fin 3) (Fin 3) ℝ :=
  !![c.A, 0.5 * c.B, 0.5 * c.D;
     0.5 * c.B, c.C, 0.5 * c.E;
     0.5 * c.D, 0.5 * c.E, c.F]

/-- Embedding of `conic_transform(conic, H)`: computes
`M = Hinv.T @ conicMat(conic) @ Hinv` and re-extracts the six coefficients,
doubling the off-diagonal entries. -/
def conic_transform (c : Conic) (H : Matrix (Fin 3) (Fin 3) ℝ) : Conic :=
  let M := (H⁻¹)ᵀ * conicMat c * H⁻¹
  ⟨M 0 0, M 0 1 * 2, M 1 1, M 0 2 * 2, M 1 2 * 2, M 2 2⟩

/-- Value of the implicit conic equation `AX² + BXY + CY² + DX + EY + F`
at a point `(x, y)` (the module docstring's implicit equation). -/
def conicEval (c : Conic) (x y : ℝ) : ℝ :=
  c.A * x ^ 2 + c.B * x * y + c.C * y ^ 2 + c.D * x + c.E * y + c.F

/-- The six raw accumulators `(a00, a10, a01, a20, a11, a02)` of
`moments_from_contour`. -/
abbrev Raw : Type := ℝ × ℝ × ℝ × ℝ × ℝ × ℝ

/-- One iteration of the accumulation loop of `moments_from_contour`, for the
edge from `(xi_1, yi_1) = p` to `(xi, yi) = q`. -/
def edge_terms (p q : ℝ × ℝ) : Raw :=
  (p.1 * q.2 - q.1 * p.2,
   (p.1 * q.2 - q.1 * p.2) * (p.1 + q.1),
   (p.1 * q.2 - q.1 * p.2) * (p.2 + q.2),
   (p.1 * q.2 - q.1 * p.2) * (p.1 * (p.1 + q.1) + q.1 * q.1),
   (p.1 * q.2 - q.1 * p.2) * (p.1 * ((p.2 + q.2) + p.2) + q.1 * ((p.2 + q.2) + q.2)),
   (p.1 * q.2 - q.1 * p.2) * (p.2 * (p.2 + q.2) + q.2 * q.2))

/-- The accumulation loop of `moments_from_contour`: starting from the point
`prev`, add the `edge_terms` of each consecutive edge along the list. -/
def contour_accum : (ℝ × ℝ) → List (ℝ × ℝ) → Raw
  | _, [] => 0
  | prev, p :: ps => edge_terms prev p + contour_accum p ps

/-- The raw accumulators of `moments_from_contour` for a closed polygon:
the previous point starts at the last point of the list (the source asserts
a nonempty point array; the default is never reached for nonempty input). -/
def contourRaw (pts : List (ℝ × ℝ)) : Raw :=
  contour_accum (pts.getLastD (0, 0)) pts

/-- Central-moment step of `moments_from_contour`: from the scaled moments
`m00..m02`, compute `cx = m10 * (1/m00)`, `cy = m01 * (1/m00)` and the
central moments `mu20 = m20 - m10*cx`, `mu11 = m11 - m10*cy`,
`mu02 = m02 - m01*cy`. -/
def contour_central (m00 m10 m01 m20 m11 m02 : ℝ) : Moments :=
  ⟨m00, m10, m01,
   m20 - m10 * (m10 * (1 / m00)),
   m11 - m10 * (m01 * (1 / m00)),
   m02 - m01 * (m01 * (1 / m00))⟩

/-- Final normalization step of `moments_from_contour`: scale the raw
accumulators by `1/2, 1/6, 1/12, 1/24` with the sign flipped when
`a00 <= 0`, then form the central moments.  The Python decimal literals
`0.1666...7` etc. denote these rationals. -/
def contour_finalize (a00 a10 a01 a20 a11 a02 : ℝ) : Moments :=
  contour_central
    (a00 * (if 0 < a00 then (0.5 : ℝ) else -0.5))
    (a10 * (if 0 < a00 then (1 / 6 : ℝ) else -(1 / 6)))
    (a01 * (if 0 < a00 then (1 / 6 : ℝ) else -(1 / 6)))
    (a20 * (if 0 < a00 then (1 / 12 : ℝ) else -(1 / 12)))
    (a11 * (if 0 < a00 then (1 / 24 : ℝ) else -(1 / 24)))
    (a02 * (if 0 < a00 then (1 / 12 : ℝ) else -(1 / 12)))

/-- Embedding of `moments_from_contour(xypoints)` for a closed polygon given
as a point list. -/
def moments_from_contour (pts : List (ℝ × ℝ)) : Moments :=
  match contourRaw pts with
  | (a00, a10, a01, a20, a11, a02) => contour_finalize a00 a10 a01 a20 a11 a02

/-! ### Helper lemmas about `conic_scale` on conics built from geometric
parameters -/

lemma conicT_from_gparams (g : Gparams) :
    conicT (conic_from_gparams g) = 4 * g.a ^ 2 * g.b ^ 2 := by
  simp only [conicT, conic_from_gparams]
  linear_combination (4 * g.a ^ 2 * g.b ^ 2 *
      (Real.sin g.theta ^ 2 + Real.cos g.theta ^ 2 + 1)) *
    Real.sin_sq_add_cos_sq g.theta

lemma conicS_from_gparams (g : Gparams) :
    conicS (conic_from_gparams g) = 4 * g.a ^ 4 * g.b ^ 4 := by
  simp only [conicS, conic_from_gparams]
  linear_combination (4 * g.a ^ 4 * g.b ^ 4 *
      (Real.sin g.theta ^ 2 + Real.cos g.theta ^ 2 + 1)) *
    Real.sin_sq_add_cos_sq g.theta

lemma conic_scale_from_gparams (g : Gparams) (ha : 0 < g.a) (hb : 0 < g.b) :
    conic_scale (conic_from_gparams g) = (.fin 1, .fin (g.a * g.b)) := by
  have hT := conicT_from_gparams g
  have hS := conicS_from_gparams g
  have hsq : Real.sqrt (4 * g.a ^ 2 * g.b ^ 2) = 2 * (g.a * g.b) := by
    rw [show (4 * g.a ^ 2 * g.b ^ 2 : ℝ) = (2 * (g.a * g.b)) ^ 2 by ring,
      Real.sqrt_sq (by positivity)]
  rw [conic_scale, hT, hS,
    if_neg (not_lt.mpr (by positivity : (0 : ℝ) ≤ 4 * g.a ^ 2 * g.b ^ 2)),
    if_neg (by positivity : (4 * g.a ^ 4 * g.b ^ 4 : ℝ) ≠ 0), hsq, fdiv,
    if_neg (by positivity : (4 * g.a ^ 2 * g.b ^ 2 * (2 * (g.a * g.b)) : ℝ) ≠ 0)]
  refine Prod.ext ?_ ?_
  · show FVal.fin _ = FVal.fin 1
    rw [FVal.fin.injEq, div_eq_one_iff_eq (by positivity)]
    ring
  · show FVal.fin _ = FVal.fin (g.a * g.b)
    rw [FVal.fin.injEq, div_eq_iff (by positivity)]
    ring

/-- C1: for every geometric parameter tuple `(x0, y0, a, b, theta)` with
`a > 0` and `b > 0`, `conic_scale` applied to `conic_from_gparams` yields
exactly `(k, ab) = (1, a*b)` in exact real arithmetic. -/
theorem C1_conic_from_gparams_canonical_scale (x0 y0 a b theta : ℝ)
    (ha : 0 < a) (hb : 0 < b) :
    conic_scale (conic_from_gparams ⟨x0, y0, a, b, theta⟩) =
      (.fin 1, .fin (a * b)) :=
  conic_scale_from_gparams ⟨x0, y0, a, b, theta⟩ ha hb

/-- Witness for C1 at the concrete tuple `(450, 320, 300, 200, -0.25)`:
the canonical scale pair is `(1, 60000)`. -/
theorem C1_conic_from_gparams_canonical_scale_witness :
    (0 : ℝ) < 300 ∧ (0 : ℝ) < 200 ∧
      conic_scale (conic_from_gparams ⟨450, 320, 300, 200, -0.25⟩) =
        (.fin 1, .fin 60000) :=
  ⟨by norm_num, by norm_num, by
    rw [C1_conic_from_gparams_canonical_scale 450 320 300 200 (-0.25)
      (by norm_num) (by norm_num)]
    norm_num⟩

/-! ### The angle convention: `arctan2` applied to a vector parallel to
`(cos θ, sin θ)` recovers `θ` up to a multiple of `π` -/

lemma arctan2_rotation (r θ : ℝ) (hr : r ≠ 0) :
    ∃ n : ℤ, arctan2 (r * Real.sin θ) (r * Real.cos θ) = θ + n * π := by
  have hz : (⟨r * Real.cos θ, r * Real.sin θ⟩ : ℂ) ≠ 0 := by
    intro h
    have h1 : r * Real.cos θ = 0 := congrArg Complex.re h
    have h2 : r * Real.sin θ = 0 := congrArg Complex.im h
    have key : r * r = (r * Real.sin θ) * (r * Real.sin θ) +
        (r * Real.cos θ) * (r * Real.cos θ) := by
      linear_combination (-(r * r)) * Real.sin_sq_add_cos_sq θ
    rw [h1, h2] at key
    exact hr (by nlinarith)
  have hsin : Real.sin
      (Complex.arg ⟨r * Real.cos θ, r * Real.sin θ⟩ - θ) = 0 := by
    rw [Real.sin_sub, Complex.sin_arg, Complex.cos_arg hz]
    show r * Real.sin θ / Complex.abs ⟨r * Real.cos θ, r * Real.sin θ⟩ *
          Real.cos θ -
        r * Real.cos θ / Complex.abs ⟨r * Real.cos θ, r * Real.sin θ⟩ *
          Real.sin θ = 0
    ring
  obtain ⟨n, hn⟩ := Real.sin_eq_zero_iff.mp hsin
  exact ⟨n, by rw [arctan2]; linarith⟩

/-! ### Round trip geometric → conic → geometric -/

lemma gparams_from_conic_from_gparams (x0 y0 a b θ : ℝ) (hb : 0 < b)
    (hba : b < a) (hc : Real.cos θ ≠ 0) :
    ∃ n : ℤ, gparams_from_conic (conic_from_gparams ⟨x0, y0, a, b, θ⟩) =
      some ⟨x0, y0, a, b, θ + n * π⟩ := by
  have ha : 0 < a := hb.trans hba
  have pyth : Real.sin θ ^ 2 + Real.cos θ ^ 2 = 1 := Real.sin_sq_add_cos_sq θ
  have hab2 : (0 : ℝ) < a ^ 2 - b ^ 2 := by nlinarith
  have hscale := conic_scale_from_gparams ⟨x0, y0, a, b, θ⟩ ha hb
  have hqA : (conic_from_gparams ⟨x0, y0, a, b, θ⟩).A =
      a ^ 2 * Real.sin θ ^ 2 + b ^ 2 * Real.cos θ ^ 2 := rfl
  have hqB : (conic_from_gparams ⟨x0, y0, a, b, θ⟩).B =
      2 * (b ^ 2 - a ^ 2) * Real.sin θ * Real.cos θ := rfl
  have hqC : (conic_from_gparams ⟨x0, y0, a, b, θ⟩).C =
      a ^ 2 * Real.cos θ ^ 2 + b ^ 2 * Real.sin θ ^ 2 := rfl
  have hqD : (conic_from_gparams ⟨x0, y0, a, b, θ⟩).D =
      -2 * (a ^ 2 * Real.sin θ ^ 2 + b ^ 2 * Real.cos θ ^ 2) * x0 -
        2 * (b ^ 2 - a ^ 2) * Real.sin θ * Real.cos θ * y0 := rfl
  have hqE : (conic_from_gparams ⟨x0, y0, a, b, θ⟩).E =
      -(2 * (b ^ 2 - a ^ 2) * Real.sin θ * Real.cos θ) * x0 -
        2 * (a ^ 2 * Real.cos θ ^ 2 + b ^ 2 * Real.sin θ ^ 2) * y0 := rfl
  obtain ⟨n, hn⟩ := arctan2_rotation (2 * (a ^ 2 - b ^ 2) * Real.cos θ) θ
    (mul_ne_zero (mul_ne_zero two_ne_zero (ne_of_gt hab2)) hc)
  refine ⟨n, ?_⟩
  simp only [gparams_from_conic, hscale, FVal.isinf, FVal.toReal,
    Bool.false_eq_true, if_false, eigh_2x2]
  rw [hqA, hqB, hqC, hqD, hqE]
  have hrad : (a ^ 2 * Real.cos θ ^ 2 + b ^ 2 * Real.sin θ ^ 2) ^ 2 -
      2 * (a ^ 2 * Real.sin θ ^ 2 + b ^ 2 * Real.cos θ ^ 2) *
        (a ^ 2 * Real.cos θ ^ 2 + b ^ 2 * Real.sin θ ^ 2) +
      4 * (0.5 * (2 * (b ^ 2 - a ^ 2) * Real.sin θ * Real.cos θ)) ^ 2 +
      (a ^ 2 * Real.sin θ ^ 2 + b ^ 2 * Real.cos θ ^ 2) ^ 2 =
      (a ^ 2 - b ^ 2) ^ 2 := by
    linear_combination ((a ^ 2 - b ^ 2) ^ 2 *
      (Real.sin θ ^ 2 + Real.cos θ ^ 2 + 1)) * pyth
  rw [hrad, Real.sqrt_sq hab2.le, Option.some.injEq, Gparams.mk.injEq]
  refine ⟨?_, ?_, ?_, ?_, ?_⟩
  · rw [show 4 * (a ^ 2 * Real.sin θ ^ 2 + b ^ 2 * Real.cos θ ^ 2) *
          (a ^ 2 * Real.cos θ ^ 2 + b ^ 2 * Real.sin θ ^ 2) -
          (2 * (b ^ 2 - a ^ 2) * Real.sin θ * Real.cos θ) ^ 2 =
          4 * a ^ 2 * b ^ 2 from by
        linear_combination (4 * a ^ 2 * b ^ 2 *
          (Real.sin θ ^ 2 + Real.cos θ ^ 2 + 1)) * pyth,
      div_eq_iff (by positivity : (4 * a ^ 2 * b ^ 2 : ℝ) ≠ 0)]
    linear_combination (4 * a ^ 2 * b ^ 2 * x0 *
      (Real.sin θ ^ 2 + Real.cos θ ^ 2 + 1)) * pyth
  · rw [show 4 * (a ^ 2 * Real.sin θ ^ 2 + b ^ 2 * Real.cos θ ^ 2) *
          (a ^ 2 * Real.cos θ ^ 2 + b ^ 2 * Real.sin θ ^ 2) -
          (2 * (b ^ 2 - a ^ 2) * Real.sin θ * Real.cos θ) ^ 2 =
          4 * a ^ 2 * b ^ 2 from by
        linear_combination (4 * a ^ 2 * b ^ 2 *
          (Real.sin θ ^ 2 + Real.cos θ ^ 2 + 1)) * pyth,
      div_eq_iff (by positivity : (4 * a ^ 2 * b ^ 2 : ℝ) ≠ 0)]
    linear_combination (4 * a ^ 2 * b ^ 2 * y0 *
      (Real.sin θ ^ 2 + Real.cos θ ^ 2 + 1)) * pyth
  · rw [show 0.5 * ((a ^ 2 * Real.cos θ ^ 2 + b ^ 2 * Real.sin θ ^ 2) +
          (a ^ 2 * Real.sin θ ^ 2 + b ^ 2 * Real.cos θ ^ 2) +
          (a ^ 2 - b ^ 2)) / 1 = a ^ 2 from by
        rw [div_one]
        linear_combination (0.5 * (a ^ 2 + b ^ 2)) * pyth]
    exact Real.sqrt_sq ha.le
  · rw [show 0.5 * ((a ^ 2 * Real.cos θ ^ 2 + b ^ 2 * Real.sin θ ^ 2) +
          (a ^ 2 * Real.sin θ ^ 2 + b ^ 2 * Real.cos θ ^ 2) -
          (a ^ 2 - b ^ 2)) / 1 = b ^ 2 from by
        rw [div_one]
        linear_combination (0.5 * (a ^ 2 + b ^ 2)) * pyth]
    exact Real.sqrt_sq hb.le
  · rw [show -(2 * (0.5 * (2 * (b ^ 2 - a ^ 2) * Real.sin θ * Real.cos θ))) =
        2 * (a ^ 2 - b ^ 2) * Real.cos θ * Real.sin θ from by ring]
    rw [show (a ^ 2 * Real.cos θ ^ 2 + b ^ 2 * Real.sin θ ^ 2) -
          (a ^ 2 * Real.sin θ ^ 2 + b ^ 2 * Real.cos θ ^ 2) +
          (a ^ 2 - b ^ 2) =
          2 * (a ^ 2 - b ^ 2) * Real.cos θ * Real.cos θ from by
      linear_combination (-(a ^ 2 - b ^ 2)) * pyth]
    exact hn

/-- C2 (amended): for every geometric tuple `(x0, y0, a, b, theta)` with
`a > b > 0` and `cos theta ≠ 0`, converting to a conic and back returns the
same center, the same semi-axes (larger eigenvalue mapped to `a`, smaller to
`b`), and an angle congruent to `theta` modulo `π`. -/
theorem C2_roundtrip_gparams_conic_gparams (x0 y0 a b θ : ℝ) (hb : 0 < b)
    (hba : b < a) (hc : Real.cos θ ≠ 0) :
    ∃ n : ℤ, gparams_from_conic (conic_from_gparams ⟨x0, y0, a, b, θ⟩) =
      some ⟨x0, y0, a, b, θ + n * π⟩ :=
  gparams_from_conic_from_gparams x0 y0 a b θ hb hba hc

/-- Witness for C2 at the concrete tuple `(3, 7, 2, 1, 0)`. -/
theorem C2_roundtrip_gparams_conic_gparams_witness :
    (0 : ℝ) < 1 ∧ (1 : ℝ) < 2 ∧ Real.cos 0 ≠ 0 ∧
      ∃ n : ℤ, gparams_from_conic (conic_from_gparams ⟨3, 7, 2, 1, 0⟩) =
        some ⟨3, 7, 2, 1, 0 + n * π⟩ :=
  ⟨by norm_num, by norm_num, by rw [Real.cos_zero]; exact one_ne_zero,
    C2_roundtrip_gparams_conic_gparams 3 7 2 1 0 (by norm_num) (by norm_num)
      (by rw [Real.cos_zero]; exact one_ne_zero)⟩

/-! ### Degenerate angle recovery at `theta = π/2`: the closed-form
eigenvector for the larger eigenvalue collapses to the zero vector, so both
round trips return angle `0` instead of an angle congruent to `π/2`. -/

lemma arctan2_zero_zero : arctan2 0 0 = 0 := by
  rw [arctan2]
  exact Complex.arg_zero

lemma no_int_multiple_pi_half : ¬ ∃ n : ℤ, (0 : ℝ) = π / 2 + n * π := by
  rintro ⟨n, hn⟩
  have h2 : ((2 * n + 1 : ℤ) : ℝ) * π = 0 := by push_cast; linarith
  rcases mul_eq_zero.mp h2 with h | h
  · have : (2 * n + 1 : ℤ) = 0 := by exact_mod_cast h
    omega
  · exact Real.pi_ne_zero h

lemma conic_from_gparams_right_angle :
    conic_from_gparams ⟨0, 0, 2, 1, π / 2⟩ = ⟨4, 0, 1, 0, 0, -4⟩ := by
  simp only [conic_from_gparams, Real.cos_pi_div_two, Real.sin_pi_div_two]
  norm_num

lemma conic_scale_right_angle :
    conic_scale ⟨4, 0, 1, 0, 0, -4⟩ = (.fin 1, .fin 2) := by
  have hT : conicT ⟨4, 0, 1, 0, 0, -4⟩ = 16 := by norm_num [conicT]
  have hS : conicS ⟨4, 0, 1, 0, 0, -4⟩ = 64 := by norm_num [conicS]
  have h16 : Real.sqrt 16 = 4 := by
    rw [show (16 : ℝ) = 4 ^ 2 by norm_num]
    exact Real.sqrt_sq (by norm_num)
  rw [conic_scale, hT, hS, if_neg (by norm_num), if_neg (by norm_num), h16,
    fdiv, if_neg (by norm_num)]
  norm_num

lemma gparams_from_conic_right_angle :
    gparams_from_conic (conic_from_gparams ⟨0, 0, 2, 1, π / 2⟩) =
      some ⟨0, 0, 2, 1, 0⟩ := by
  rw [conic_from_gparams_right_angle]
  simp only [gparams_from_conic, conic_scale_right_angle, FVal.isinf,
    FVal.toReal, Bool.false_eq_true, if_false, eigh_2x2]
  have h9 : Real.sqrt ((1 : ℝ) ^ 2 - 2 * 4 * 1 + 4 * (0.5 * 0) ^ 2 + 4 ^ 2) =
      3 := by
    rw [show ((1 : ℝ) ^ 2 - 2 * 4 * 1 + 4 * (0.5 * 0) ^ 2 + 4 ^ 2) = 3 ^ 2 by
      norm_num]
    exact Real.sqrt_sq (by norm_num)
  rw [h9, Option.some.injEq, Gparams.mk.injEq]
  have hsa : Real.sqrt (0.5 * ((1 : ℝ) + 4 + 3) / 1) = 2 := by
    rw [show (0.5 * ((1 : ℝ) + 4 + 3) / 1) = 2 ^ 2 by norm_num]
    exact Real.sqrt_sq (by norm_num)
  have hsb : Real.sqrt (0.5 * ((1 : ℝ) + 4 - 3) / 1) = 1 := by
    rw [show (0.5 * ((1 : ℝ) + 4 - 3) / 1) = 1 ^ 2 by norm_num]
    exact Real.sqrt_sq (by norm_num)
  refine ⟨by norm_num, by norm_num, hsa, hsb, ?_⟩
  rw [show -(2 * (0.5 * (0 : ℝ))) = 0 by norm_num,
    show (1 : ℝ) - 4 + 3 = 0 by norm_num]
  exact arctan2_zero_zero

/-- Counterexample to C2 as stated: at `(x0, y0, a, b, theta) =
(0, 0, 2, 1, π/2)` (which satisfies `a ≥ b > 0`), the round trip through the
conic representation returns the angle `0`, which is not congruent to `π/2`
modulo `π`. -/
theorem C2_counterexample_right_angle :
    gparams_from_conic (conic_from_gparams ⟨0, 0, 2, 1, π / 2⟩) =
      some ⟨0, 0, 2, 1, 0⟩ ∧ ¬ ∃ n : ℤ, (0 : ℝ) = π / 2 + n * π :=
  ⟨gparams_from_conic_right_angle, no_int_multiple_pi_half⟩

/-! ### Round trip geometric → moments → geometric -/

lemma gparams_from_moments_from_gparams (x0 y0 a b θ : ℝ) (hb : 0 < b)
    (hba : b < a) (hc : Real.cos θ ≠ 0) :
    ∃ n : ℤ, gparams_from_moments (moments_from_gparams ⟨x0, y0, a, b, θ⟩) =
      ⟨x0, y0, a, b, θ + n * π⟩ := by
  have ha : 0 < a := hb.trans hba
  have pyth : Real.sin θ ^ 2 + Real.cos θ ^ 2 = 1 := Real.sin_sq_add_cos_sq θ
  have hab2 : (0 : ℝ) < a ^ 2 - b ^ 2 := by nlinarith
  have hm00ne : (a * b * π : ℝ) ≠ 0 := by positivity
  have hm00 : (moments_from_gparams ⟨x0, y0, a, b, θ⟩).m00 = a * b * π := rfl
  have hm10 : (moments_from_gparams ⟨x0, y0, a, b, θ⟩).m10 =
      x0 * (a * b * π) := rfl
  have hm01 : (moments_from_gparams ⟨x0, y0, a, b, θ⟩).m01 =
      y0 * (a * b * π) := rfl
  have hmu20 : (moments_from_gparams ⟨x0, y0, a, b, θ⟩).mu20 =
      (a ^ 2 * Real.cos θ ^ 2 + b ^ 2 * Real.sin θ ^ 2) * (a * b * π) *
        0.25 := rfl
  have hmu11 : (moments_from_gparams ⟨x0, y0, a, b, θ⟩).mu11 =
      -(b ^ 2 - a ^ 2) * Real.sin θ * Real.cos θ * (a * b * π) * 0.25 := rfl
  have hmu02 : (moments_from_gparams ⟨x0, y0, a, b, θ⟩).mu02 =
      (a ^ 2 * Real.sin θ ^ 2 + b ^ 2 * Real.cos θ ^ 2) * (a * b * π) *
        0.25 := rfl
  have hx0 : x0 * (a * b * π) / (a * b * π) = x0 := by
    field_simp
  have hy0 : y0 * (a * b * π) / (a * b * π) = y0 := by
    field_simp
  have hX : (a ^ 2 * Real.cos θ ^ 2 + b ^ 2 * Real.sin θ ^ 2) * (a * b * π) *
      0.25 / (a * b * π) =
      0.25 * (a ^ 2 * Real.cos θ ^ 2 + b ^ 2 * Real.sin θ ^ 2) := by
    field_simp
    ring
  have hY : -(b ^ 2 - a ^ 2) * Real.sin θ * Real.cos θ * (a * b * π) * 0.25 /
      (a * b * π) =
      0.25 * (a ^ 2 - b ^ 2) * Real.sin θ * Real.cos θ := by
    field_simp
    ring
  have hZ : (a ^ 2 * Real.sin θ ^ 2 + b ^ 2 * Real.cos θ ^ 2) * (a * b * π) *
      0.25 / (a * b * π) =
      0.25 * (a ^ 2 * Real.sin θ ^ 2 + b ^ 2 * Real.cos θ ^ 2) := by
    field_simp
    ring
  obtain ⟨n, hn⟩ := arctan2_rotation (0.5 * (a ^ 2 - b ^ 2) * Real.cos θ) θ
    (mul_ne_zero (mul_ne_zero (by norm_num) (ne_of_gt hab2)) hc)
  refine ⟨n, ?_⟩
  simp only [gparams_from_moments, eigh_2x2]
  rw [hm00, hm10, hm01, hmu20, hmu11, hmu02, hx0, hy0, hX, hY, hZ]
  have hrad : (0.25 * (a ^ 2 * Real.sin θ ^ 2 + b ^ 2 * Real.cos θ ^ 2)) ^ 2 -
      2 * (0.25 * (a ^ 2 * Real.cos θ ^ 2 + b ^ 2 * Real.sin θ ^ 2)) *
        (0.25 * (a ^ 2 * Real.sin θ ^ 2 + b ^ 2 * Real.cos θ ^ 2)) +
      4 * (0.25 * (a ^ 2 - b ^ 2) * Real.sin θ * Real.cos θ) ^ 2 +
      (0.25 * (a ^ 2 * Real.cos θ ^ 2 + b ^ 2 * Real.sin θ ^ 2)) ^ 2 =
      (0.25 * (a ^ 2 - b ^ 2)) ^ 2 := by
    linear_combination ((0.25 * (a ^ 2 - b ^ 2)) ^ 2 *
      (Real.sin θ ^ 2 + Real.cos θ ^ 2 + 1)) * pyth
  rw [hrad, Real.sqrt_sq (by positivity : (0 : ℝ) ≤ 0.25 * (a ^ 2 - b ^ 2)),
    Gparams.mk.injEq]
  refine ⟨rfl, rfl, ?_, ?_, ?_⟩
  · rw [show 0.5 * ((0.25 * (a ^ 2 * Real.sin θ ^ 2 + b ^ 2 * Real.cos θ ^ 2)) +
          (0.25 * (a ^ 2 * Real.cos θ ^ 2 + b ^ 2 * Real.sin θ ^ 2)) +
          0.25 * (a ^ 2 - b ^ 2)) = (0.5 * a) ^ 2 from by
        linear_combination (0.125 * (a ^ 2 + b ^ 2)) * pyth]
    rw [Real.sqrt_sq (by positivity : (0 : ℝ) ≤ 0.5 * a)]
    ring
  · rw [show 0.5 * ((0.25 * (a ^ 2 * Real.sin θ ^ 2 + b ^ 2 * Real.cos θ ^ 2)) +
          (0.25 * (a ^ 2 * Real.cos θ ^ 2 + b ^ 2 * Real.sin θ ^ 2)) -
          0.25 * (a ^ 2 - b ^ 2)) = (0.5 * b) ^ 2 from by
        linear_combination (0.125 * (a ^ 2 + b ^ 2)) * pyth]
    rw [Real.sqrt_sq (by positivity : (0 : ℝ) ≤ 0.5 * b)]
    ring
  · rw [show (2 : ℝ) * (0.25 * (a ^ 2 - b ^ 2) * Real.sin θ * Real.cos θ) =
        (0.5 * (a ^ 2 - b ^ 2) * Real.cos θ) * Real.sin θ from by ring]
    rw [show -((0.25 * (a ^ 2 * Real.sin θ ^ 2 + b ^ 2 * Real.cos θ ^ 2)) -
          (0.25 * (a ^ 2 * Real.cos θ ^ 2 + b ^ 2 * Real.sin θ ^ 2)) -
          0.25 * (a ^ 2 - b ^ 2)) =
          (0.5 * (a ^ 2 - b ^ 2) * Real.cos θ) * Real.cos θ from by
      linear_combination (-(0.25 * (a ^ 2 - b ^ 2))) * pyth]
    exact hn

/-- C3 (amended): for every geometric tuple `(x0, y0, a, b, theta)` with
`a > b > 0` and `cos theta ≠ 0`, converting to moments and back returns the
same center, the same semi-axes, and an angle congruent to `theta` modulo
`π`, using the moment path's own angle convention. -/
theorem C3_roundtrip_gparams_moments_gparams (x0 y0 a b θ : ℝ) (hb : 0 < b)
    (hba : b < a) (hc : Real.cos θ ≠ 0) :
    ∃ n : ℤ, gparams_from_moments (moments_from_gparams ⟨x0, y0, a, b, θ⟩) =
      ⟨x0, y0, a, b, θ + n * π⟩ :=
  gparams_from_moments_from_gparams x0 y0 a b θ hb hba hc

/-- Witness for C3 at the concrete tuple `(3, 7, 2, 1, 0)`. -/
theorem C3_roundtrip_gparams_moments_gparams_witness :
    (0 : ℝ) < 1 ∧ (1 : ℝ) < 2 ∧ Real.cos 0 ≠ 0 ∧
      ∃ n : ℤ, gparams_from_moments (moments_from_gparams ⟨3, 7, 2, 1, 0⟩) =
        ⟨3, 7, 2, 1, 0 + n * π⟩ :=
  ⟨by norm_num, by norm_num, by rw [Real.cos_zero]; exact one_ne_zero,
    C3_roundtrip_gparams_moments_gparams 3 7 2 1 0 (by norm_num) (by norm_num)
      (by rw [Real.cos_zero]; exact one_ne_zero)⟩

lemma moments_from_gparams_right_angle :
    moments_from_gparams ⟨0, 0, 2, 1, π / 2⟩ =
      ⟨2 * π, 0, 0, 0.5 * π, 0, 2 * π⟩ := by
  simp only [moments_from_gparams, Real.cos_pi_div_two, Real.sin_pi_div_two]
  rw [Moments.mk.injEq]
  refine ⟨by ring, by ring, by ring, by ring, by ring, by ring⟩

lemma gparams_from_moments_right_angle :
    gparams_from_moments (moments_from_gparams ⟨0, 0, 2, 1, π / 2⟩) =
      ⟨0, 0, 2, 1, 0⟩ := by
  rw [moments_from_gparams_right_angle]
  simp only [gparams_from_moments, eigh_2x2]
  have hX25 : 0.5 * π / (2 * π) = 0.25 := by
    rw [div_eq_iff (by positivity : (2 * π : ℝ) ≠ 0)]
    ring
  have hY0 : (0 : ℝ) / (2 * π) = 0 := zero_div _
  have hZ1 : 2 * π / (2 * π) = 1 := div_self (by positivity)
  rw [hX25, hY0, hZ1]
  have hrad : Real.sqrt ((1 : ℝ) ^ 2 - 2 * 0.25 * 1 + 4 * 0 ^ 2 + 0.25 ^ 2) =
      0.75 := by
    rw [show ((1 : ℝ) ^ 2 - 2 * 0.25 * 1 + 4 * 0 ^ 2 + 0.25 ^ 2) = 0.75 ^ 2 by
      norm_num]
    exact Real.sqrt_sq (by norm_num)
  rw [hrad, Gparams.mk.injEq]
  have hsa : Real.sqrt (0.5 * ((1 : ℝ) + 0.25 + 0.75)) = 1 := by
    rw [show (0.5 * ((1 : ℝ) + 0.25 + 0.75)) = 1 by norm_num]
    exact Real.sqrt_one
  have hsb : Real.sqrt (0.5 * ((1 : ℝ) + 0.25 - 0.75)) = 0.5 := by
    rw [show (0.5 * ((1 : ℝ) + 0.25 - 0.75)) = 0.5 ^ 2 by norm_num]
    exact Real.sqrt_sq (by norm_num)
  refine ⟨rfl, rfl, ?_, ?_, ?_⟩
  · rw [hsa]; norm_num
  · rw [hsb]; norm_num
  · rw [show (2 : ℝ) * 0 = 0 by norm_num,
      show -((1 : ℝ) - 0.25 - 0.75) = 0 by norm_num]
    exact arctan2_zero_zero

/-- Counterexample to C3 as stated: at `(x0, y0, a, b, theta) =
(0, 0, 2, 1, π/2)` (which satisfies `a ≥ b > 0`), the round trip through the
moment representation returns the angle `0`, which is not congruent to `π/2`
modulo `π`. -/
theorem C3_counterexample_right_angle :
    gparams_from_moments (moments_from_gparams ⟨0, 0, 2, 1, π / 2⟩) =
      ⟨0, 0, 2, 1, 0⟩ ∧ ¬ ∃ n : ℤ, (0 : ℝ) = π / 2 + n * π :=
  ⟨gparams_from_moments_right_angle, no_int_multiple_pi_half⟩

/-! ### Cross-consistency of the two paths from geometric parameters to a
conic -/

lemma conic_from_moments_from_gparams (x0 y0 a b θ : ℝ) (ha : 0 < a)
    (hb : 0 < b) :
    conic_from_moments (moments_from_gparams ⟨x0, y0, a, b, θ⟩) =
      conic_from_gparams ⟨x0, y0, a, b, θ⟩ := by
  have pyth : Real.sin θ ^ 2 + Real.cos θ ^ 2 = 1 := Real.sin_sq_add_cos_sq θ
  have hm00ne : (a * b * π : ℝ) ≠ 0 := by positivity
  have hm00 : (moments_from_gparams ⟨x0, y0, a, b, θ⟩).m00 = a * b * π := rfl
  have hm10 : (moments_from_gparams ⟨x0, y0, a, b, θ⟩).m10 =
      x0 * (a * b * π) := rfl
  have hm01 : (moments_from_gparams ⟨x0, y0, a, b, θ⟩).m01 =
      y0 * (a * b * π) := rfl
  have hmu20 : (moments_from_gparams ⟨x0, y0, a, b, θ⟩).mu20 =
      (a ^ 2 * Real.cos θ ^ 2 + b ^ 2 * Real.sin θ ^ 2) * (a * b * π) *
        0.25 := rfl
  have hmu11 : (moments_from_gparams ⟨x0, y0, a, b, θ⟩).mu11 =
      -(b ^ 2 - a ^ 2) * Real.sin θ * Real.cos θ * (a * b * π) * 0.25 := rfl
  have hmu02 : (moments_from_gparams ⟨x0, y0, a, b, θ⟩).mu02 =
      (a ^ 2 * Real.sin θ ^ 2 + b ^ 2 * Real.cos θ ^ 2) * (a * b * π) *
        0.25 := rfl
  have hcg : conic_from_gparams ⟨x0, y0, a, b, θ⟩ =
      ⟨a ^ 2 * Real.sin θ ^ 2 + b ^ 2 * Real.cos θ ^ 2,
       2 * (b ^ 2 - a ^ 2) * Real.sin θ * Real.cos θ,
       a ^ 2 * Real.cos θ ^ 2 + b ^ 2 * Real.sin θ ^ 2,
       -2 * (a ^ 2 * Real.sin θ ^ 2 + b ^ 2 * Real.cos θ ^ 2) * x0 -
         2 * (b ^ 2 - a ^ 2) * Real.sin θ * Real.cos θ * y0,
       -(2 * (b ^ 2 - a ^ 2) * Real.sin θ * Real.cos θ) * x0 -
         2 * (a ^ 2 * Real.cos θ ^ 2 + b ^ 2 * Real.sin θ ^ 2) * y0,
       (a ^ 2 * Real.sin θ ^ 2 + b ^ 2 * Real.cos θ ^ 2) * x0 ^ 2 +
         2 * (b ^ 2 - a ^ 2) * Real.sin θ * Real.cos θ * x0 * y0 +
         (a ^ 2 * Real.cos θ ^ 2 + b ^ 2 * Real.sin θ ^ 2) * y0 ^ 2 -
         a ^ 2 * b ^ 2⟩ := rfl
  have hx0c : x0 * (a * b * π) / (a * b * π) = x0 := by field_simp
  have hy0c : y0 * (a * b * π) / (a * b * π) = y0 := by field_simp
  have hA : 4 * ((a ^ 2 * Real.sin θ ^ 2 + b ^ 2 * Real.cos θ ^ 2) *
      (a * b * π) * 0.25) / (a * b * π) =
      a ^ 2 * Real.sin θ ^ 2 + b ^ 2 * Real.cos θ ^ 2 := by
    field_simp
    ring
  have hB : -8 * (-(b ^ 2 - a ^ 2) * Real.sin θ * Real.cos θ * (a * b * π) *
      0.25) / (a * b * π) =
      2 * (b ^ 2 - a ^ 2) * Real.sin θ * Real.cos θ := by
    field_simp
    ring
  have hC : 4 * ((a ^ 2 * Real.cos θ ^ 2 + b ^ 2 * Real.sin θ ^ 2) *
      (a * b * π) * 0.25) / (a * b * π) =
      a ^ 2 * Real.cos θ ^ 2 + b ^ 2 * Real.sin θ ^ 2 := by
    field_simp
    ring
  rw [hcg]
  simp only [conic_from_moments]
  rw [hm00, hm10, hm01, hmu20, hmu11, hmu02, hx0c, hy0c, hA, hB, hC,
    Conic.mk.injEq]
  refine ⟨rfl, rfl, rfl, rfl, rfl, ?_⟩
  linear_combination (-(a ^ 2 * b ^ 2 *
    (Real.sin θ ^ 2 + Real.cos θ ^ 2 + 1))) * pyth

/-- C4: for every geometric parameter tuple with `a > 0` and `b > 0`, the
composite `conic_from_moments (moments_from_gparams g)` equals
`conic_from_gparams g` exactly, coefficient by coefficient. -/
theorem C4_conic_from_moments_matches_conic_from_gparams (x0 y0 a b θ : ℝ)
    (ha : 0 < a) (hb : 0 < b) :
    conic_from_moments (moments_from_gparams ⟨x0, y0, a, b, θ⟩) =
      conic_from_gparams ⟨x0, y0, a, b, θ⟩ :=
  conic_from_moments_from_gparams x0 y0 a b θ ha hb

/-- Witness for C4 at the concrete tuple `(3, 7, 2, 1, 0)`. -/
theorem C4_conic_from_moments_matches_conic_from_gparams_witness :
    (0 : ℝ) < 2 ∧ (0 : ℝ) < 1 ∧
      conic_from_moments (moments_from_gparams ⟨3, 7, 2, 1, 0⟩) =
        conic_from_gparams ⟨3, 7, 2, 1, 0⟩ :=
  ⟨by norm_num, by norm_num,
    C4_conic_from_moments_matches_conic_from_gparams 3 7 2 1 0 (by norm_num)
      (by norm_num)⟩

/-! ### Scale behaviour of `conic_scale` -/

lemma conic_scale_eq_fin (c : Conic) (k0 ab0 : ℝ)
    (h : conic_scale c = (.fin k0, .fin ab0)) :
    0 < conicT c ∧ conicS c ≠ 0 ∧ k0 = 0.25 * conicT c ^ 2 / conicS c ∧
      ab0 = 2 * conicS c / (conicT c * Real.sqrt (conicT c)) := by
  by_cases hT : conicT c < 0
  · rw [conic_scale, if_pos hT] at h
    simp at h
  · by_cases hS : conicS c = 0
    · rw [conic_scale, if_neg hT, if_pos hS] at h
      simp at h
    · rw [conic_scale, if_neg hT, if_neg hS, fdiv] at h
      by_cases hd : conicT c * Real.sqrt (conicT c) = 0
      · rw [if_pos hd] at h
        by_cases h2 : 0 < 2 * conicS c
        · rw [if_pos h2] at h
          simp at h
        · rw [if_neg h2] at h
          by_cases h3 : 2 * conicS c < 0
          · rw [if_pos h3] at h
            simp at h
          · rw [if_neg h3] at h
            simp at h
      · rw [if_neg hd] at h
        have hT0 : 0 < conicT c := by
          rcases lt_trichotomy (conicT c) 0 with h' | h' | h'
          · exact absurd h' hT
          · exact absurd (by rw [h']; simp) hd
          · exact h'
        simp only [Prod.mk.injEq, FVal.fin.injEq] at h
        exact ⟨hT0, hS, h.1.symm, h.2.symm⟩

lemma conic_scale_smul (c : Conic) (k k0 ab0 : ℝ) (hk : 0 < k)
    (h : conic_scale c = (.fin k0, .fin ab0)) :
    conic_scale (conic_smul k c) = (.fin (k * k0), .fin ab0) := by
  obtain ⟨hT, hS, hk0, hab0⟩ := conic_scale_eq_fin c k0 ab0 h
  have hTne : conicT c ≠ 0 := hT.ne'
  have hsT : Real.sqrt (conicT c) ≠ 0 := (Real.sqrt_pos.mpr hT).ne'
  have hT' : conicT (conic_smul k c) = k ^ 2 * conicT c := by
    simp only [conicT, conic_smul]
    ring
  have hS' : conicS (conic_smul k c) = k ^ 3 * conicS c := by
    simp only [conicS, conic_smul]
    ring
  have hsqrt : Real.sqrt (k ^ 2 * conicT c) = k * Real.sqrt (conicT c) := by
    rw [Real.sqrt_mul (by positivity : (0 : ℝ) ≤ k ^ 2), Real.sqrt_sq hk.le]
  rw [conic_scale, hT', hS',
    if_neg (not_lt.mpr (le_of_lt (mul_pos (pow_pos hk 2) hT))),
    if_neg (mul_ne_zero (by positivity) hS), hsqrt, fdiv,
    if_neg (by
      refine mul_ne_zero (mul_ne_zero (by positivity) hTne)
        (mul_ne_zero hk.ne' hsT))]
  refine Prod.ext ?_ ?_
  · show FVal.fin _ = FVal.fin (k * k0)
    rw [FVal.fin.injEq, hk0]
    field_simp
    ring
  · show FVal.fin _ = FVal.fin ab0
    rw [FVal.fin.injEq, hab0]
    field_simp
    ring

/-- C5 (amended): for every scalar `k > 0` and every conic `c` on which
`conic_scale` returns a finite pair `(k0, ab0)`, `conic_scale` applied to the
scaled conic `k*c` returns exactly `(k*k0, ab0)`.  (For `k < 0` the `ab`
component flips sign, see the counterexample.) -/
theorem C5_conic_scale_positive_scalar (c : Conic) (k k0 ab0 : ℝ)
    (hk : 0 < k) (h : conic_scale c = (.fin k0, .fin ab0)) :
    conic_scale (conic_smul k c) = (.fin (k * k0), .fin ab0) :=
  conic_scale_smul c k k0 ab0 hk h

lemma conic_scale_unit_circle :
    conic_scale ⟨1, 0, 1, 0, 0, -1⟩ = (.fin 1, .fin 1) := by
  have hT : conicT ⟨1, 0, 1, 0, 0, -1⟩ = 4 := by norm_num [conicT]
  have hS : conicS ⟨1, 0, 1, 0, 0, -1⟩ = 4 := by norm_num [conicS]
  have h4 : Real.sqrt 4 = 2 := by
    rw [show (4 : ℝ) = 2 ^ 2 by norm_num]
    exact Real.sqrt_sq (by norm_num)
  rw [conic_scale, hT, hS, if_neg (by norm_num), if_neg (by norm_num), h4,
    fdiv, if_neg (by norm_num)]
  norm_num

/-- Witness for C5 at the unit-circle conic and `k = 2`. -/
theorem C5_conic_scale_positive_scalar_witness :
    (0 : ℝ) < 2 ∧ conic_scale ⟨1, 0, 1, 0, 0, -1⟩ = (.fin 1, .fin 1) ∧
      conic_scale (conic_smul 2 ⟨1, 0, 1, 0, 0, -1⟩) =
        (.fin (2 * 1), .fin 1) :=
  ⟨by norm_num, conic_scale_unit_circle,
    C5_conic_scale_positive_scalar ⟨1, 0, 1, 0, 0, -1⟩ 2 1 1 (by norm_num)
      conic_scale_unit_circle⟩

lemma conic_scale_neg_unit_circle :
    conic_scale (conic_smul (-1) ⟨1, 0, 1, 0, 0, -1⟩) =
      (.fin (-1), .fin (-1)) := by
  have hsm : conic_smul (-1) ⟨1, 0, 1, 0, 0, -1⟩ =
      (⟨-1, 0, -1, 0, 0, 1⟩ : Conic) := by
    rw [conic_smul, Conic.mk.injEq]
    norm_num
  have hT : conicT ⟨-1, 0, -1, 0, 0, 1⟩ = 4 := by norm_num [conicT]
  have hS : conicS ⟨-1, 0, -1, 0, 0, 1⟩ = -4 := by norm_num [conicS]
  have h4 : Real.sqrt 4 = 2 := by
    rw [show (4 : ℝ) = 2 ^ 2 by norm_num]
    exact Real.sqrt_sq (by norm_num)
  rw [hsm, conic_scale, hT, hS, if_neg (by norm_num), if_neg (by norm_num),
    h4, fdiv, if_neg (by norm_num)]
  norm_num

/-- Counterexample to C5 as stated: for the nonzero scalar `k = -1` and the
unit-circle conic `c` (with `conic_scale c = (1, 1)`), `conic_scale (k*c)`
is `(-1, -1)`, not `(k*k0, ab0) = (-1, 1)` — the `ab` component flips its
sign for a negative scalar. -/
theorem C5_counterexample_negative_scalar :
    ((-1 : ℝ) ≠ 0) ∧ conic_scale ⟨1, 0, 1, 0, 0, -1⟩ = (.fin 1, .fin 1) ∧
      conic_scale (conic_smul (-1) ⟨1, 0, 1, 0, 0, -1⟩) ≠
        (.fin ((-1) * 1), .fin 1) := by
  refine ⟨by norm_num, conic_scale_unit_circle, ?_⟩
  rw [conic_scale_neg_unit_circle]
  norm_num

/-! ### Correctness of the closed-form 2x2 symmetric eigensolver -/

/-- C6: `eigh_2x2` returns eigenvalues `w0 = 0.5*(z+x-q)` and
`w1 = 0.5*(z+x+q)` with `q = sqrt((z-x)^2 + 4*y^2)`, satisfying `w0 ≤ w1`;
the columns of `V` are `(2y, z-x-q)` and `(2y, z-x+q)`, and each column `v_i`
satisfies the eigen-equation `[[x,y],[y,z]] * v_i = w_i * v_i`. -/
theorem C6_eigh_2x2_correct (x y z : ℝ) :
    (eigh_2x2 x y z).w0 =
        0.5 * (z + x - Real.sqrt ((z - x) ^ 2 + 4 * y ^ 2)) ∧
      (eigh_2x2 x y z).w1 =
        0.5 * (z + x + Real.sqrt ((z - x) ^ 2 + 4 * y ^ 2)) ∧
      (eigh_2x2 x y z).w0 ≤ (eigh_2x2 x y z).w1 ∧
      (eigh_2x2 x y z).v00 = 2 * y ∧
      (eigh_2x2 x y z).v10 =
        z - x - Real.sqrt ((z - x) ^ 2 + 4 * y ^ 2) ∧
      (eigh_2x2 x y z).v01 = 2 * y ∧
      (eigh_2x2 x y z).v11 =
        z - x + Real.sqrt ((z - x) ^ 2 + 4 * y ^ 2) ∧
      x * (eigh_2x2 x y z).v00 + y * (eigh_2x2 x y z).v10 =
        (eigh_2x2 x y z).w0 * (eigh_2x2 x y z).v00 ∧
      y * (eigh_2x2 x y z).v00 + z * (eigh_2x2 x y z).v10 =
        (eigh_2x2 x y z).w0 * (eigh_2x2 x y z).v10 ∧
      x * (eigh_2x2 x y z).v01 + y * (eigh_2x2 x y z).v11 =
        (eigh_2x2 x y z).w1 * (eigh_2x2 x y z).v01 ∧
      y * (eigh_2x2 x y z).v01 + z * (eigh_2x2 x y z).v11 =
        (eigh_2x2 x y z).w1 * (eigh_2x2 x y z).v11 := by
  have hrad : z ^ 2 - 2 * x * z + 4 * y ^ 2 + x ^ 2 =
      (z - x) ^ 2 + 4 * y ^ 2 := by ring
  have hq : Real.sqrt (z ^ 2 - 2 * x * z + 4 * y ^ 2 + x ^ 2) ^ 2 =
      (z - x) ^ 2 + 4 * y ^ 2 := by
    rw [Real.sq_sqrt (by nlinarith [sq_nonneg (z - x), sq_nonneg y] :
      (0 : ℝ) ≤ z ^ 2 - 2 * x * z + 4 * y ^ 2 + x ^ 2), hrad]
  refine ⟨?_, ?_, ?_, rfl, ?_, rfl, ?_, ?_, ?_, ?_, ?_⟩
  · simp only [eigh_2x2]
    rw [hrad]
  · simp only [eigh_2x2]
    rw [hrad]
  · simp only [eigh_2x2]
    have := Real.sqrt_nonneg (z ^ 2 - 2 * x * z + 4 * y ^ 2 + x ^ 2)
    linarith
  · simp only [eigh_2x2]
    rw [hrad]
  · simp only [eigh_2x2]
    rw [hrad]
  · simp only [eigh_2x2]
    ring
  · simp only [eigh_2x2]
    linear_combination (-0.5 : ℝ) * hq
  · simp only [eigh_2x2]
    ring
  · simp only [eigh_2x2]
    linear_combination (-0.5 : ℝ) * hq

/-! ### The `None` sentinel for non-ellipse conics -/

lemma conic_scale_snd_isinf_iff (c : Conic) :
    ((conic_scale c).2.isinf = true) ↔ (¬ 0 < conicT c ∨ conicS c = 0) := by
  by_cases hT : conicT c < 0
  · rw [conic_scale, if_pos hT]
    exact ⟨fun _ => Or.inl (not_lt.mpr hT.le), fun _ => rfl⟩
  · by_cases hS : conicS c = 0
    · rw [conic_scale, if_neg hT, if_pos hS]
      exact ⟨fun _ => Or.inr hS, fun _ => rfl⟩
    · rw [conic_scale, if_neg hT, if_neg hS, fdiv]
      rcases lt_trichotomy (conicT c) 0 with h0 | h0 | h0
      · exact absurd h0 hT
      · rw [if_pos (by rw [h0]; simp)]
        rcases lt_or_gt_of_ne hS with h' | h'
        · rw [if_neg (by linarith : ¬ (0 : ℝ) < 2 * conicS c),
            if_pos (by linarith : 2 * conicS c < 0)]
          exact ⟨fun _ => Or.inl (by rw [h0]; exact lt_irrefl 0),
            fun _ => rfl⟩
        · rw [if_pos (by linarith : (0 : ℝ) < 2 * conicS c)]
          exact ⟨fun _ => Or.inl (by rw [h0]; exact lt_irrefl 0),
            fun _ => rfl⟩
      · rw [if_neg (mul_ne_zero h0.ne' (Real.sqrt_pos.mpr h0).ne')]
        constructor
        · intro hh
          simp [FVal.isinf] at hh
        · intro hor
          cases hor with
          | inl h => exact absurd h0 h
          | inr h => exact absurd h hS

lemma gparams_from_conic_none_iff (c : Conic) :
    gparams_from_conic c = none ↔ (¬ 0 < conicT c ∨ conicS c = 0) := by
  rw [← conic_scale_snd_isinf_iff]
  simp only [gparams_from_conic]
  by_cases h : (conic_scale c).2.isinf
  · simp [h]
  · simp [h]

lemma moments_from_conic_none_iff (c : Conic) :
    moments_from_conic c = none ↔ (¬ 0 < conicT c ∨ conicS c = 0) := by
  rw [← conic_scale_snd_isinf_iff]
  simp only [moments_from_conic]
  by_cases h : (conic_scale c).2.isinf
  · simp [h]
  · simp [h]

/-- C7: `gparams_from_conic` and `moments_from_conic` return the `None`
sentinel exactly when `T = 4AC - B²` is not strictly positive or
`S = AE² + B²F + CD² - BDE - 4ACF` is zero, and otherwise return a
parameter tuple. -/
theorem C7_none_iff_not_ellipse (c : Conic) :
    (gparams_from_conic c = none ↔ (¬ 0 < conicT c ∨ conicS c = 0)) ∧
      (moments_from_conic c = none ↔ (¬ 0 < conicT c ∨ conicS c = 0)) :=
  ⟨gparams_from_conic_none_iff c, moments_from_conic_none_iff c⟩

/-! ### The parabolic boundary case `T = 0`, `S ≠ 0` -/

lemma conic_scale_parabola (c : Conic) (hT : conicT c = 0)
    (hS : conicS c ≠ 0) :
    conic_scale c =
      (.fin 0, if 0 < conicS c then FVal.pinf else FVal.ninf) := by
  rw [conic_scale, hT, if_neg (lt_irrefl (0 : ℝ)), if_neg hS, fdiv,
    if_pos (by simp)]
  rcases lt_or_gt_of_ne hS with h' | h'
  · rw [if_neg (by linarith : ¬ (0 : ℝ) < 2 * conicS c),
      if_pos (by linarith : 2 * conicS c < 0),
      if_neg (by linarith : ¬ (0 : ℝ) < conicS c)]
    norm_num
  · rw [if_pos (by linarith : (0 : ℝ) < 2 * conicS c), if_pos h']
    norm_num

/-- C10: for a conic with `T = 0` and `S ≠ 0` (a parabola), `conic_scale`
takes neither explicit sentinel branch and returns `k = 0` together with a
signed infinity for `ab` (from the IEEE division `2S/0`), not the documented
`(inf, inf)` pair; `gparams_from_conic` and `moments_from_conic` still
return `None` because they test only whether `ab` is infinite. -/
theorem C10_parabola_scale_and_none (c : Conic) (hT : conicT c = 0)
    (hS : conicS c ≠ 0) :
    (conic_scale c).1 = .fin 0 ∧
      (conic_scale c).2 = (if 0 < conicS c then FVal.pinf else FVal.ninf) ∧
      conic_scale c ≠ (.pinf, .pinf) ∧
      gparams_from_conic c = none ∧ moments_from_conic c = none := by
  have hcs := conic_scale_parabola c hT hS
  refine ⟨by rw [hcs], by rw [hcs], by rw [hcs]; simp, ?_, ?_⟩
  · exact (gparams_from_conic_none_iff c).mpr
      (Or.inl (by rw [hT]; exact lt_irrefl 0))
  · exact (moments_from_conic_none_iff c).mpr
      (Or.inl (by rw [hT]; exact lt_irrefl 0))

/-- Witness for C10 at the parabola `x² - y = 0`, i.e. the conic
`(1, 0, 0, 0, -1, 0)`. -/
theorem C10_parabola_scale_and_none_witness :
    conicT ⟨1, 0, 0, 0, -1, 0⟩ = 0 ∧ conicS ⟨1, 0, 0, 0, -1, 0⟩ ≠ 0 ∧
      (conic_scale ⟨1, 0, 0, 0, -1, 0⟩).1 = .fin 0 ∧
      gparams_from_conic ⟨1, 0, 0, 0, -1, 0⟩ = none ∧
      moments_from_conic ⟨1, 0, 0, 0, -1, 0⟩ = none := by
  have hT : conicT ⟨1, 0, 0, 0, -1, 0⟩ = 0 := by norm_num [conicT]
  have hS : conicS ⟨1, 0, 0, 0, -1, 0⟩ ≠ 0 := by norm_num [conicS]
  have h := C10_parabola_scale_and_none ⟨1, 0, 0, 0, -1, 0⟩ hT hS
  exact ⟨hT, hS, h.1, h.2.2.2.1, h.2.2.2.2⟩

/-! ### Projective transform of a conic -/

lemma conicEval_quadform (d : Conic) (v : Fin 3 → ℝ) :
    v ⬝ᵥ (conicMat d).mulVec v =
      d.A * v 0 ^ 2 + d.B * v 0 * v 1 + d.C * v 1 ^ 2 + d.D * v 0 * v 2 +
        d.E * v 1 * v 2 + d.F * v 2 ^ 2 := by
  simp [conicMat, Matrix.mulVec, Matrix.dotProduct, Fin.sum_univ_three]
  ring

lemma conicEval_eq_quadform (d : Conic) (u v : ℝ) :
    conicEval d u v =
      (![u, v, 1] : Fin 3 → ℝ) ⬝ᵥ (conicMat d).mulVec ![u, v, 1] := by
  rw [conicEval_quadform]
  simp only [Matrix.cons_val_zero, Matrix.cons_val_one, Matrix.head_cons,
    Matrix.cons_val_two, Matrix.tail_cons, conicEval]
  ring

lemma conicMat_transpose (c : Conic) : (conicMat c)ᵀ = conicMat c := by
  ext i j
  fin_cases i <;> fin_cases j <;> simp [conicMat]

lemma conic_transform_mat (c : Conic) (H : Matrix (Fin 3) (Fin 3) ℝ) :
    conicMat (conic_transform c H) = (H⁻¹)ᵀ * conicMat c * H⁻¹ := by
  have main : ∀ N : Matrix (Fin 3) (Fin 3) ℝ, Nᵀ = N →
      conicMat ⟨((H⁻¹)ᵀ * N * H⁻¹) 0 0, ((H⁻¹)ᵀ * N * H⁻¹) 0 1 * 2,
        ((H⁻¹)ᵀ * N * H⁻¹) 1 1, ((H⁻¹)ᵀ * N * H⁻¹) 0 2 * 2,
        ((H⁻¹)ᵀ * N * H⁻¹) 1 2 * 2, ((H⁻¹)ᵀ * N * H⁻¹) 2 2⟩ =
      (H⁻¹)ᵀ * N * H⁻¹ := by
    intro N hN
    have hsymm : ((H⁻¹)ᵀ * N * H⁻¹)ᵀ = (H⁻¹)ᵀ * N * H⁻¹ := by
      rw [Matrix.transpose_mul, Matrix.transpose_mul,
        Matrix.transpose_transpose, hN, Matrix.mul_assoc]
    have hsym_app : ∀ i j, ((H⁻¹)ᵀ * N * H⁻¹) j i =
        ((H⁻¹)ᵀ * N * H⁻¹) i j := by
      intro i j
      conv_lhs => rw [← hsymm]
      rw [Matrix.transpose_apply]
    conv_rhs => rw [Matrix.eta_fin_three ((H⁻¹)ᵀ * N * H⁻¹)]
    simp only [conicMat]
    congr 1
    simp only [Matrix.vecCons, Fin.cons_eq_cons]
    refine ⟨⟨trivial, by ring, by ring, trivial⟩,
      ⟨by linear_combination hsym_app 1 0, trivial, by ring, trivial⟩,
      ⟨by linear_combination hsym_app 2 0, by linear_combination hsym_app 2 1,
        trivial⟩, trivial⟩
  exact main (conicMat c) (conicMat_transpose c)

lemma conic_transform_eval (c : Conic) (H : Matrix (Fin 3) (Fin 3) ℝ)
    (hH : IsUnit H.det) (x y : ℝ) (h0 : conicEval c x y = 0)
    (hw : H.mulVec ![x, y, 1] 2 ≠ 0) :
    conicEval (conic_transform c H)
      (H.mulVec ![x, y, 1] 0 / H.mulVec ![x, y, 1] 2)
      (H.mulVec ![x, y, 1] 1 / H.mulVec ![x, y, 1] 2) = 0 := by
  have hinv : H⁻¹.mulVec (H.mulVec ![x, y, 1]) = ![x, y, 1] := by
    rw [Matrix.mulVec_mulVec, Matrix.nonsing_inv_mul H hH, Matrix.one_mulVec]
  have key : H.mulVec ![x, y, 1] ⬝ᵥ
      ((H⁻¹)ᵀ * conicMat c * H⁻¹).mulVec (H.mulVec ![x, y, 1]) =
      (![x, y, 1] : Fin 3 → ℝ) ⬝ᵥ (conicMat c).mulVec ![x, y, 1] := by
    rw [Matrix.mul_assoc, ← Matrix.mulVec_mulVec, Matrix.dotProduct_mulVec,
      Matrix.vecMul_transpose, hinv, ← Matrix.mulVec_mulVec, hinv]
  have hvec : (![H.mulVec ![x, y, 1] 0 / H.mulVec ![x, y, 1] 2,
      H.mulVec ![x, y, 1] 1 / H.mulVec ![x, y, 1] 2, 1] : Fin 3 → ℝ) =
      (H.mulVec ![x, y, 1] 2)⁻¹ • H.mulVec ![x, y, 1] := by
    funext i
    fin_cases i <;> simp [div_eq_inv_mul, inv_mul_cancel₀ hw]
  rw [conicEval_eq_quadform, hvec, conic_transform_mat,
    Matrix.mulVec_smul, Matrix.dotProduct_smul, Matrix.smul_dotProduct,
    key, ← conicEval_eq_quadform, h0]
  simp

/-- C8: for every conic `c` and invertible 3x3 matrix `H`,
`conic_transform c H` extracts its coefficients (off-diagonals doubled) from
`M' = (H⁻¹)ᵀ M H⁻¹` where `M` is the symmetric matrix of `c`; consequently
every point of the conic is mapped by `H` (in homogeneous coordinates, when
the image has a nonzero last coordinate) to a point of the transformed
conic. -/
theorem C8_conic_transform_correct (c : Conic) (H : Matrix (Fin 3) (Fin 3) ℝ)
    (hH : IsUnit H.det) :
    (conic_transform c H =
        ⟨((H⁻¹)ᵀ * conicMat c * H⁻¹) 0 0,
         ((H⁻¹)ᵀ * conicMat c * H⁻¹) 0 1 * 2,
         ((H⁻¹)ᵀ * conicMat c * H⁻¹) 1 1,
         ((H⁻¹)ᵀ * conicMat c * H⁻¹) 0 2 * 2,
         ((H⁻¹)ᵀ * conicMat c * H⁻¹) 1 2 * 2,
         ((H⁻¹)ᵀ * conicMat c * H⁻¹) 2 2⟩) ∧
      ∀ x y : ℝ, conicEval c x y = 0 → H.mulVec ![x, y, 1] 2 ≠ 0 →
        conicEval (conic_transform c H)
          (H.mulVec ![x, y, 1] 0 / H.mulVec ![x, y, 1] 2)
          (H.mulVec ![x, y, 1] 1 / H.mulVec ![x, y, 1] 2) = 0 :=
  ⟨rfl, fun x y h0 hw => conic_transform_eval c H hH x y h0 hw⟩

/-- Witness for C8: the unit circle through the identity homography, at the
point `(1, 0)` of the circle. -/
theorem C8_conic_transform_correct_witness :
    IsUnit (Matrix.det (1 : Matrix (Fin 3) (Fin 3) ℝ)) ∧
      conicEval ⟨1, 0, 1, 0, 0, -1⟩ 1 0 = 0 ∧
      (1 : Matrix (Fin 3) (Fin 3) ℝ).mulVec ![1, 0, 1] 2 ≠ 0 ∧
      conicEval (conic_transform ⟨1, 0, 1, 0, 0, -1⟩ 1)
        ((1 : Matrix (Fin 3) (Fin 3) ℝ).mulVec ![1, 0, 1] 0 /
          (1 : Matrix (Fin 3) (Fin 3) ℝ).mulVec ![1, 0, 1] 2)
        ((1 : Matrix (Fin 3) (Fin 3) ℝ).mulVec ![1, 0, 1] 1 /
          (1 : Matrix (Fin 3) (Fin 3) ℝ).mulVec ![1, 0, 1] 2) = 0 := by
  have hdet : IsUnit (Matrix.det (1 : Matrix (Fin 3) (Fin 3) ℝ)) := by
    rw [Matrix.det_one]
    exact isUnit_one
  have h0 : conicEval ⟨1, 0, 1, 0, 0, -1⟩ 1 0 = 0 := by
    norm_num [conicEval]
  have hw : (1 : Matrix (Fin 3) (Fin 3) ℝ).mulVec ![1, 0, 1] 2 ≠ 0 := by
    rw [Matrix.one_mulVec]
    norm_num
  exact ⟨hdet, h0, hw,
    (C8_conic_transform_correct ⟨1, 0, 1, 0, 0, -1⟩ 1 hdet).2 1 0 h0 hw⟩

/-! ### Winding-independence of the polygon moments -/

lemma edge_terms_swap (p q : ℝ × ℝ) : edge_terms q p = - edge_terms p q := by
  simp only [edge_terms, Prod.neg_mk, Prod.mk.injEq]
  refine ⟨by ring, by ring, by ring, by ring, by ring, by ring⟩

lemma contour_accum_append (prev b : ℝ × ℝ) (l : List (ℝ × ℝ)) :
    contour_accum prev (l ++ [b]) =
      contour_accum prev l + edge_terms (l.getLastD prev) b := by
  induction l generalizing prev with
  | nil => simp [contour_accum]
  | cons p ps ih =>
    simp only [List.cons_append, contour_accum, List.getLastD_cons,
      List.append_eq, ih p]
    rw [add_assoc]

lemma contour_accum_reverse (l : List (ℝ × ℝ)) (a b : ℝ × ℝ) :
    contour_accum b (l.reverse ++ [a]) = - contour_accum a (l ++ [b]) := by
  induction l generalizing a b with
  | nil =>
    simp only [List.reverse_nil, List.nil_append, contour_accum, add_zero]
    rw [edge_terms_swap]
  | cons y ys ih =>
    rw [List.reverse_cons, contour_accum_append, List.getLastD_concat, ih y b]
    simp only [List.cons_append, contour_accum, List.append_eq]
    rw [edge_terms_swap]
    abel

lemma contour_accum_rotate (c : ℝ × ℝ) (m : List (ℝ × ℝ)) :
    contour_accum (m.getLastD c) (c :: m) = contour_accum c (m ++ [c]) := by
  rw [contour_accum_append]
  simp only [contour_accum]
  rw [add_comm]

lemma contourRaw_reverse (pts : List (ℝ × ℝ)) :
    contourRaw pts.reverse = - contourRaw pts := by
  cases pts with
  | nil => simp [contourRaw, contour_accum]
  | cons x xs =>
    rw [contourRaw, contourRaw, List.reverse_cons, List.getLastD_concat,
      List.getLastD_cons, contour_accum_reverse xs x x, contour_accum_rotate]

lemma contour_finalize_neg (a00 a10 a01 a20 a11 a02 : ℝ) (h : a00 ≠ 0) :
    contour_finalize (-a00) (-a10) (-a01) (-a20) (-a11) (-a02) =
      contour_finalize a00 a10 a01 a20 a11 a02 := by
  simp only [contour_finalize]
  split_ifs with h1 h2 h2
  · exact absurd (by linarith : a00 < 0) (by linarith)
  · rw [show (-a00) * (0.5 : ℝ) = a00 * (-0.5) from by ring,
      show (-a10) * ((1 : ℝ) / 6) = a10 * (-(1 / 6)) from by ring,
      show (-a01) * ((1 : ℝ) / 6) = a01 * (-(1 / 6)) from by ring,
      show (-a20) * ((1 : ℝ) / 12) = a20 * (-(1 / 12)) from by ring,
      show (-a11) * ((1 : ℝ) / 24) = a11 * (-(1 / 24)) from by ring,
      show (-a02) * ((1 : ℝ) / 12) = a02 * (-(1 / 12)) from by ring]
  · rw [show (-a00) * (-0.5 : ℝ) = a00 * 0.5 from by ring,
      show (-a10) * (-((1 : ℝ) / 6)) = a10 * (1 / 6) from by ring,
      show (-a01) * (-((1 : ℝ) / 6)) = a01 * (1 / 6) from by ring,
      show (-a20) * (-((1 : ℝ) / 12)) = a20 * (1 / 12) from by ring,
      show (-a11) * (-((1 : ℝ) / 24)) = a11 * (1 / 24) from by ring,
      show (-a02) * (-((1 : ℝ) / 12)) = a02 * (1 / 12) from by ring]
  · exact absurd (le_antisymm (by linarith) (by linarith)) h

/-- C9: for every closed polygon whose accumulated raw signed area `a00` is
nonzero, `moments_from_contour` applied to the reversed point sequence
returns exactly the same six moments as on the original sequence, and the
returned `m00` is positive for both windings. -/
theorem C9_contour_moments_winding_independent (pts : List (ℝ × ℝ))
    (h : (contourRaw pts).1 ≠ 0) :
    moments_from_contour pts.reverse = moments_from_contour pts ∧
      0 < (moments_from_contour pts).m00 := by
  have hrev := contourRaw_reverse pts
  rcases hraw : contourRaw pts with ⟨a00, a10, a01, a20, a11, a02⟩
  rw [hraw] at h hrev
  have ha00 : a00 ≠ 0 := h
  constructor
  · simp only [moments_from_contour, hrev, hraw, Prod.neg_mk]
    exact contour_finalize_neg a00 a10 a01 a20 a11 a02 ha00
  · simp only [moments_from_contour, hraw, contour_finalize, contour_central]
    rcases lt_or_gt_of_ne ha00 with hneg | hpos
    · rw [if_neg (by linarith : ¬ (0 : ℝ) < a00)]
      exact mul_pos_of_neg_of_neg hneg (by norm_num)
    · rw [if_pos hpos]
      exact mul_pos hpos (by norm_num)

/-- Witness for C9 at the unit square `(0,0), (1,0), (1,1), (0,1)`, whose
raw signed area accumulator is `2`. -/
theorem C9_contour_moments_winding_independent_witness :
    (contourRaw [((0 : ℝ), (0 : ℝ)), (1, 0), (1, 1), (0, 1)]).1 ≠ 0 ∧
      (moments_from_contour
          ([((0 : ℝ), (0 : ℝ)), (1, 0), (1, 1), (0, 1)]).reverse =
        moments_from_contour [((0 : ℝ), (0 : ℝ)), (1, 0), (1, 1), (0, 1)] ∧
      0 < (moments_from_contour
        [((0 : ℝ), (0 : ℝ)), (1, 0), (1, 1), (0, 1)]).m00) := by
  have h : (contourRaw [((0 : ℝ), (0 : ℝ)), (1, 0), (1, 1), (0, 1)]).1 ≠ 0 := by
    simp only [contourRaw, contour_accum, edge_terms, List.getLastD]
    norm_num
  exact ⟨h, C9_contour_moments_winding_independent _ h⟩

end Ellipse

end
